import Mathlib

set_option maxHeartbeats 1000000

/- Verification of the lexer of a small ECMAScript front end (source files
context.rs, node.rs, parser.rs, string.rs, token.rs).  The embedding is
shallow: the source buffer (ReadonlyString) is the list of Unicode
codepoints of the input (utf8_slice addresses codepoints, clamping
out-of-range slice bounds), every Rust scanning function becomes a Lean
function with its mutable cursor state (`position`, `column`, flags) passed
in and returned explicitly, and a Rust panic becomes an `Except.error`
carrying the formatted panic message.  Loops take an explicit fuel
argument; every call site passes `src.length + 1`, which exceeds the
number of iterations any of the loops can make, since each loop advances
`position` by one per iteration and stops once `position` reaches
`src.length`. -/

/- Character classes, from the lazy_static regular expressions at the top of
parser.rs, expressed on the codepoint value:
  REG_IDENTIFIER      = [0-9a-zA-Z$_]
  REG_STRING_BOUNDARY = ['"]
  REG_NUMBERIC        = [0-9]
  REG_WHITESPACE      = \s   (the regex crate's Unicode White_Space class)
  REG_LINE_BREAK      = [\n\r]
(REG_OPERATOR is declared in the source but never used.) -/

def isIdentChar (c : Char) : Bool :=
  decide ((48 ≤ c.toNat ∧ c.toNat ≤ 57) ∨ (97 ≤ c.toNat ∧ c.toNat ≤ 122) ∨
    (65 ≤ c.toNat ∧ c.toNat ≤ 90) ∨ c.toNat = 36 ∨ c.toNat = 95)

def isStringBoundaryChar (c : Char) : Bool :=
  decide (c.toNat = 39 ∨ c.toNat = 34)

def isNumericChar (c : Char) : Bool :=
  decide (48 ≤ c.toNat ∧ c.toNat ≤ 57)

def isWhitespaceChar (c : Char) : Bool :=
  decide ((9 ≤ c.toNat ∧ c.toNat ≤ 13) ∨ c.toNat = 32 ∨ c.toNat = 133 ∨
    c.toNat = 160 ∨ c.toNat = 5760 ∨ (8192 ≤ c.toNat ∧ c.toNat ≤ 8202) ∨
    c.toNat = 8232 ∨ c.toNat = 8233 ∨ c.toNat = 8239 ∨ c.toNat = 8287 ∨
    c.toNat = 12288)

def isLineBreakChar (c : Char) : Bool :=
  decide (c.toNat = 10 ∨ c.toNat = 13)

/- Token model, from token.rs.  `Raw` mirrors `pub type Raw = String`.
The Number payload carries the decoded value of `content.parse::<f64>()`;
on the digit runs the scanner produces, that parse yields the exact decimal
integer value (see `parseF64` below), so the payload is kept as a Nat. -/

abbrev Raw := String

inductive Comparation
  | DoubleE | TripleE | DoubleNE | TripleNE | LT | LTE | GT | GTE
  deriving DecidableEq

inductive Arithmetic
  | Plus | Minus | Multiple | Divide | Modulo
  deriving DecidableEq

inductive Assign
  | Normal | Addition | Subtraction | Multiplication | Division | NullishCoalescing
  deriving DecidableEq

inductive NumberSystem
  | Binary | Octal | Decimal | Hex
  deriving DecidableEq

inductive RegExpModifier
  | I | G
  deriving DecidableEq

inductive Token
  | Number (raw : Raw) (system : NumberSystem) (value : Nat)
  | Bigint (raw : Raw) (system : NumberSystem) (value : Int)
  | RegExp (raw : Raw) (content : Raw) (modifier : Option RegExpModifier)
  | String (raw : Raw) (content : Raw)
  | Name (name : Raw)
  | PrivateName (raw : Raw) (content : Raw)
  | Var | Let | Const
  | Function | Return
  | For | Of | Do | While | Break | Continue
  | Switch | Case
  | Throw | Try | Catch | Finally
  | If | Else
  | New | This | Super | Delete | Class | Extends | Instanceof | Typeof
  | Import | Export | Default
  | Null | Undefined | True | False | Void
  | In
  | Comparation (c : Comparation)
  | Arithmetic (a : Arithmetic)
  | Assign (a : Assign)
  | ParenL | ParenR | BracketL | BracketR | BraceL | BraceR
  | Dot | QuestionDot | Semi | Comma | Colon | Question | NullishCoalesce
  | LogicalInversion | BitwiseInversion | LogicalOR | BitwiseOR
  | LogicalAND | BitwiseAND | Increment | Decrement | Arrow

/- AST node model, from node.rs, restricted to what the scanner touches.
`Stmt` lists implementors of the `Statement` trait (payloads other than the
FunctionDeclaration identifier are elided: the scanner only ever builds
`FunctionDeclaration::new(Identifier::new(identifier))` placeholders, whose
params and body are empty).  `Expr` likewise stands for the `Expression`
trait objects that could sit in the context's expression sink. -/

structure Position where
  line : Nat
  column : Nat
  deriving DecidableEq

structure SourceLocation where
  source : Option String
  start : Position
  endPos : Position
  deriving DecidableEq

inductive Expr
  | FunctionExpression
  | Identifier (name : String)
  deriving DecidableEq

inductive Stmt
  | FunctionDeclaration (id : String)
  | VariableDeclaration
  | ExpressionStatement
  | BlockStatement
  | ReturnStatement
  | EmptyStatement
  deriving DecidableEq

structure Program where
  loc : SourceLocation
  body : List Stmt
  deriving DecidableEq

/- Parsing context, from context.rs.  In the source, `statements` is a
mutable borrow of `Program.body`; here the context owns the list and
`parse` reads it back at the end.  `Context::new` leaves `expressions` as
`None`, and nothing in parser.rs ever sets it to `Some`. -/

structure Context where
  is_function_identifier : Bool
  is_directive : Bool
  is_pattern : Bool
  statements : List Stmt
  expressions : Option (List Expr)
  deriving DecidableEq

def Context.new : Context :=
  { is_function_identifier := false
    is_directive := false
    is_pattern := false
    statements := []
    expressions := none }

/- Source buffer primitives.  `get_char` is parser.rs's
`src.slice(position, position + 1)`: the empty string (here `none`) when
`position` is out of range, otherwise the single codepoint.  `slice`
mirrors utf8_slice::slice, which clamps `end` to the length and yields the
empty string whenever `begin ≥ end` or `begin` is out of range. -/

def getChar (src : List Char) (position : Nat) : Option Char :=
  src[position]?

def ReadonlyString.slice (src : List Char) (b e : Nat) : List Char :=
  (src.take e).drop b

/- Operator table, from `get_operator_by_chars` in parser.rs: the match
arms, in source order, as an association list; a string matches at most one
arm since the keys are pairwise distinct, so first-match lookup coincides
with the source's match expression. -/

def operatorTable : List (List Char × Token) :=
  [ (['=', '='], Token.Comparation Comparation.DoubleE)
  , (['=', '=', '='], Token.Comparation Comparation.TripleE)
  , (['!', '='], Token.Comparation Comparation.DoubleNE)
  , (['!', '=', '='], Token.Comparation Comparation.TripleNE)
  , (['<'], Token.Comparation Comparation.LT)
  , (['<', '='], Token.Comparation Comparation.LTE)
  , (['>'], Token.Comparation Comparation.GT)
  , (['>', '='], Token.Comparation Comparation.GTE)
  , (['+'], Token.Arithmetic Arithmetic.Plus)
  , (['-'], Token.Arithmetic Arithmetic.Minus)
  , (['*'], Token.Arithmetic Arithmetic.Multiple)
  , (['/'], Token.Arithmetic Arithmetic.Divide)
  , (['%'], Token.Arithmetic Arithmetic.Modulo)
  , (['='], Token.Assign Assign.Normal)
  , (['+', '='], Token.Assign Assign.Addition)
  , (['-', '='], Token.Assign Assign.Subtraction)
  , (['*', '='], Token.Assign Assign.Multiplication)
  , (['/', '='], Token.Assign Assign.Division)
  , (['?', '?', '='], Token.Assign Assign.NullishCoalescing)
  , (['('], Token.ParenL)
  , ([')'], Token.ParenR)
  , (['['], Token.BracketL)
  , ([']'], Token.BracketR)
  , (['{'], Token.BraceL)
  , (['}'], Token.BraceR)
  , (['.'], Token.Dot)
  , (['?', '.'], Token.QuestionDot)
  , ([';'], Token.Semi)
  , ([','], Token.Comma)
  , ([':'], Token.Colon)
  , (['?'], Token.Question)
  , (['?', '?'], Token.NullishCoalesce)
  , (['!'], Token.LogicalInversion)
  , (['~'], Token.BitwiseInversion)
  , (['|', '|'], Token.LogicalOR)
  , (['|'], Token.BitwiseOR)
  , (['&', '&'], Token.LogicalAND)
  , (['&'], Token.BitwiseAND)
  , (['+', '+'], Token.Increment)
  , (['-', '-'], Token.Decrement)
  , (['=', '>'], Token.Arrow) ]

def get_operator_by_chars (chars : List Char) : Option Token :=
  (operatorTable.find? fun p => decide (p.1 = chars)).map fun p => p.2

/- Panic message builders, reproducing the format strings in parser.rs. -/

def unexpectedCharMsg (char : Char) (line column : Nat) : String :=
  "Unexpected character \x27" ++ String.mk [char] ++ "\x27 at line:" ++
    toString line ++ ", column:" ++ toString column

def unexpectedCharPeriodMsg (shown : String) (line column : Nat) : String :=
  "Unexpected character \x27" ++ shown ++ "\x27 at line:" ++
    toString line ++ ", column:" ++ toString column ++ "."

def unexpectedTokenMsg (identifier : String) (line column : Nat) : String :=
  "Unexpected token \x27" ++ identifier ++ "\x27 at line:" ++
    toString line ++ ", column:" ++ toString column

/- How read_string's panic displays the offending character: line breaks
are shown escaped, anything else (including end of input) as empty. -/
def displayStrChar : Option Char → String
  | some '\n' => "\\n"
  | some '\r' => "\\r"
  | _ => ""

/- How read_reg_exp's panic displays the offending character: line breaks
escaped, end of input empty, anything else verbatim. -/
def displayRegChar : Option Char → String
  | some '\n' => "\\n"
  | some '\r' => "\\r"
  | none => ""
  | some c => String.mk [c]

/- Shared escape-aware scanning loop of read_string and read_reg_exp
(their while loops are textually identical up to the boundary character):
consume while in range, the current character is not the (unescaped)
boundary, and the current character is not a line break; a backslash seen
with the escape flag clear sets the flag, and any character consumed with
the flag set clears it. -/
def scanEscaped (src : List Char) (boundary : Option Char) :
    Nat → Nat → Nat → Bool → Nat × Nat
  | 0, position, column, _ => (position, column)
  | fuel + 1, position, column, esc =>
    if position < src.length ∧ (getChar src position ≠ boundary ∨ esc = true) ∧
        ¬ (getChar src position).any isLineBreakChar = true then
      scanEscaped src boundary fuel (position + 1) (column + 1)
        (if esc then false else decide (getChar src position = some '\\'))
    else (position, column)

/- read_string, from parser.rs.  Note the column is not advanced for either
quote, and the emitted content is `utf8_slice::slice(raw, 1, len raw)`,
i.e. the raw text with only the opening quote removed. -/
def read_string (src : List Char) (position line column : Nat) :
    Except String (Token × Nat × Nat) :=
  let start := position
  let boundary := getChar src start
  match scanEscaped src boundary (src.length + 1) (position + 1) column false with
  | (p1, c1) =>
    if getChar src p1 ≠ boundary then
      Except.error (unexpectedCharPeriodMsg (displayStrChar (getChar src p1)) line c1)
    else
      let raw := ReadonlyString.slice src start (p1 + 1)
      Except.ok (Token.String (String.mk raw) (String.mk (raw.drop 1)), p1 + 1, c1)

/- Radix-prefix detection of read_numberic (parser.rs lines 141 to 155):
the `("0", _)` arm matches any second codepoint, including none at all. -/
def numberSystemOf (src : List Char) (start : Nat) : NumberSystem × Nat :=
  match getChar src start, getChar src (start + 1) with
  | some '0', some 'b' => (NumberSystem.Binary, start + 2)
  | some '0', some 'x' => (NumberSystem.Hex, start + 2)
  | some '0', _ => (NumberSystem.Octal, start + 1)
  | _, _ => (NumberSystem.Decimal, start)

/- Digit/separator consuming loop of read_numberic: consume decimal digits
and underscores, failing on two consecutive underscores. -/
def readNumbericLoop (src : List Char) :
    Nat → Nat → Nat → Bool → Except String (Nat × Nat)
  | 0, position, column, _ => Except.ok (position, column)
  | fuel + 1, position, column, separate =>
    if position < src.length ∧
        ((getChar src position).any isNumericChar = true ∨ getChar src position = some '_') then
      if getChar src position = some '_' then
        if separate then
          Except.error "Only one underscore is allowed as numeric separator"
        else readNumbericLoop src fuel (position + 1) (column + 1) true
      else readNumbericLoop src fuel (position + 1) (column + 1) false
    else Except.ok (position, column)

def digitsToNat (s : List Char) : Nat :=
  s.foldl (fun acc c => acc * 10 + (c.toNat - 48)) 0

/-- Models Rust's `str::parse::<f64>` on the only strings read_numberic can
pass it, namely runs over `[0-9_]`: a nonempty all-digit string decodes to
its decimal integer value (kept exact; rounding to the nearest 64-bit
float is not modelled), and the empty string or any string containing an
underscore is rejected (`ParseFloatError`, which the source unwraps). -/
def parseF64 (s : List Char) : Option Nat :=
  if s ≠ [] ∧ s.all (fun c => isNumericChar c) then some (digitsToNat s) else none

/-- Models Rust's `str::parse::<i128>` on runs over `[0-9_]`: a nonempty
all-digit string within the i128 range decodes to its value; the empty
string, an underscore, or overflow is rejected (`ParseIntError`, which the
source unwraps). -/
def parseI128 (s : List Char) : Option Int :=
  if s ≠ [] ∧ s.all (fun c => isNumericChar c) ∧ digitsToNat s ≤ 2 ^ 127 - 1 then
    some ((digitsToNat s : Int))
  else none

/- read_numberic, from parser.rs.  Faithful details: a lone leading `0` is
consumed as an octal prefix (the `("0", _)` catch-all); the digit run is
decoded including any underscores; and in the bigint branch the returned
position still points at the `n` suffix (the source slices `position + 1`
into the raw text but never advances `position`). -/
def read_numberic (src : List Char) (position _line column : Nat) :
    Except String (Token × Nat × Nat) :=
  let start := position
  match numberSystemOf src start with
  | (system, p0) =>
    if getChar src p0 = some '_' then
      Except.error "Numeric separators are not allowed at the first of numeric literals"
    else
      match readNumbericLoop src (src.length + 1) p0 column false with
      | Except.error e => Except.error e
      | Except.ok (p1, c1) =>
        if getChar src p1 = some 'n' then
          match parseI128 (ReadonlyString.slice src p0 p1) with
          | some v =>
            Except.ok (Token.Bigint (String.mk (ReadonlyString.slice src start (p1 + 1))) system v, p1, c1)
          | none => Except.error "invalid digit found in string"
        else
          match parseF64 (ReadonlyString.slice src p0 p1) with
          | some v =>
            Except.ok (Token.Number (String.mk (ReadonlyString.slice src start p1)) system v, p1, c1)
          | none => Except.error "invalid float literal"

/- read_reg_exp, from parser.rs.  Faithful details: after the loop the
check also lets `i` and `g` pass (dead arms: the loop can only stop at a
slash, a line break, or end of input); with a modifier the content slice
ends at `position - 2` (stripping the closing slash and the modifier), but
without one it ends at `position`, keeping the closing slash. -/
def read_reg_exp (src : List Char) (position line column : Nat) :
    Except String (Token × Nat × Nat) :=
  let start := position
  match scanEscaped src (some '/') (src.length + 1) (position + 1) column false with
  | (p1, c1) =>
    if getChar src p1 ≠ some '/' ∧ getChar src p1 ≠ some 'i' ∧ getChar src p1 ≠ some 'g' then
      Except.error (unexpectedCharPeriodMsg (displayRegChar (getChar src p1)) line c1)
    else
      let p2 := p1 + 1
      match (match getChar src p2 with
             | some 'i' => (some RegExpModifier.I, p2 + 1)
             | some 'g' => (some RegExpModifier.G, p2 + 1)
             | _ => ((none : Option RegExpModifier), p2)) with
      | (modifier, p3) =>
        let raw := ReadonlyString.slice src start p3
        let content := ReadonlyString.slice src (start + 1)
          (match modifier with | some _ => p3 - 2 | none => p3)
        Except.ok (Token.RegExp (String.mk raw) (String.mk content) modifier, p3, c1)

/- Identifier-run loop shared by read_private_name and read_keyword_or_name:
consume identifier-class codepoints. -/
def readIdentRun (src : List Char) : Nat → Nat → Nat → Nat × Nat
  | 0, position, column => (position, column)
  | fuel + 1, position, column =>
    if position < src.length ∧ (getChar src position).any isIdentChar = true then
      readIdentRun src fuel (position + 1) (column + 1)
    else (position, column)

/- read_private_name, from parser.rs: `#` plus an identifier run; never
fails. -/
def read_private_name (src : List Char) (position column : Nat) :
    Token × Nat × Nat :=
  let start := position
  match readIdentRun src (src.length + 1) (position + 1) column with
  | (p1, c1) =>
    (Token.PrivateName (String.mk (ReadonlyString.slice src start p1)) (String.mk (ReadonlyString.slice src (start + 1) p1)),
     p1, c1)

/- Keyword classification of read_keyword_or_name, from parser.rs.  The
source's `_` arm also clears is_function_identifier before producing the
Name token; the later `Token::Name(_)` validation arm clears it again, so
the clearing is modelled once, in read_keyword_or_name below. -/
def keywordOf (identifier : String) : Token :=
  match identifier with
  | "var" => Token.Var
  | "let" => Token.Let
  | "const" => Token.Const
  | "function" => Token.Function
  | "return" => Token.Return
  | "for" => Token.For
  | "of" => Token.Of
  | "do" => Token.Do
  | "while" => Token.While
  | "break" => Token.Break
  | "continue" => Token.Continue
  | "switch" => Token.Switch
  | "case" => Token.Case
  | "throw" => Token.Throw
  | "try" => Token.Try
  | "catch" => Token.Catch
  | "finally" => Token.Finally
  | "if" => Token.If
  | "else" => Token.Else
  | "new" => Token.New
  | "this" => Token.This
  | "super" => Token.Super
  | "delete" => Token.Delete
  | "class" => Token.Class
  | "extends" => Token.Extends
  | "instanceof" => Token.Instanceof
  | "typeof" => Token.Typeof
  | "import" => Token.Import
  | "export" => Token.Export
  | "default" => Token.Default
  | "null" => Token.Null
  | "undefined" => Token.Undefined
  | "true" => Token.True
  | "false" => Token.False
  | "void" => Token.Void
  | "in" => Token.In
  | _ => Token.Name identifier

/- read_keyword_or_name, from parser.rs: read an identifier run, classify
it, then validate: a Name clears the function-identifier flag and pushes a
FunctionDeclaration placeholder onto the statement sink; `function` sets
the flag (and would push a FunctionExpression onto the expression sink if
one were attached); any other keyword is a fatal error while the flag is
set.  The panic message uses the column as advanced past the identifier. -/
def read_keyword_or_name (src : List Char) (context : Context)
    (position line column : Nat) : Except String (Token × Context × Nat × Nat) :=
  match readIdentRun src (src.length + 1) position column with
  | (p1, c1) =>
    let identifier := String.mk (ReadonlyString.slice src position p1)
    match keywordOf identifier with
    | Token.Name n =>
      Except.ok (Token.Name n,
        { context with
            is_function_identifier := false
            statements := context.statements ++ [Stmt.FunctionDeclaration n] },
        p1, c1)
    | Token.Function =>
      match context.expressions with
      | some es =>
        Except.ok (Token.Function,
          { context with
              is_function_identifier := true
              expressions := some (es ++ [Expr.FunctionExpression]) },
          p1, c1)
      | none =>
        Except.ok (Token.Function, { context with is_function_identifier := true }, p1, c1)
    | t =>
      if context.is_function_identifier then
        Except.error (unexpectedTokenMsg identifier line c1)
      else Except.ok (t, context, p1, c1)

/- read_identifier, from parser.rs: dispatch on the first character of the
run. -/
def read_identifier (src : List Char) (context : Context)
    (position line column : Nat) : Except String (Token × Context × Nat × Nat) :=
  if (getChar src position).any isNumericChar then
    match read_numberic src position line column with
    | Except.error e => Except.error e
    | Except.ok (t, p1, c1) => Except.ok (t, context, p1, c1)
  else if getChar src position = some '/' then
    match read_reg_exp src position line column with
    | Except.error e => Except.error e
    | Except.ok (t, p1, c1) => Except.ok (t, context, p1, c1)
  else if getChar src position = some '#' then
    match read_private_name src position column with
    | (t, p1, c1) => Except.ok (t, context, p1, c1)
  else read_keyword_or_name src context position line column

/- read_operator, from parser.rs: longest-match against the operator table,
trying the 3-codepoint slice, then 2, then 1 (slices near the end of input
are shorter and may therefore match a short operator at the first try).
The failure message shows the column already advanced past the character. -/
def read_operator (src : List Char) (position line column : Nat) :
    Except String (Token × Nat × Nat) :=
  match get_operator_by_chars (ReadonlyString.slice src position (position + 3)) with
  | some t => Except.ok (t, position + 3, column + 3)
  | none =>
    match get_operator_by_chars (ReadonlyString.slice src position (position + 2)) with
    | some t => Except.ok (t, position + 2, column + 2)
    | none =>
      match get_operator_by_chars (ReadonlyString.slice src position (position + 1)) with
      | some t => Except.ok (t, position + 1, column + 1)
      | none =>
        Except.error (unexpectedCharPeriodMsg
          (String.mk (ReadonlyString.slice src position (position + 1))) line (column + 1))

/- Backward scan of find_prev_char_ignore_whitespace: from index i
downward, skip whitespace; none stands for the source's empty string
(start of input, or only whitespace before). -/
def findPrevAux (src : List Char) : Nat → Option Char
  | 0 => if (getChar src 0).any isWhitespaceChar then none else getChar src 0
  | j + 1 =>
    if (getChar src (j + 1)).any isWhitespaceChar then findPrevAux src j
    else getChar src (j + 1)

def find_prev_char_ignore_whitespace (src : List Char) (start : Nat) : Option Char :=
  if start = 0 then none else findPrevAux src (start - 1)

/- validate_token, from parser.rs. -/
def validate_token (context : Context) (char : Char) (line column : Nat) :
    Except String Unit :=
  if context.is_function_identifier then
    Except.error (unexpectedCharMsg char line column)
  else Except.ok ()

/- One iteration of the scanning loop of `parse` (parser.rs lines 494 to
562), factored out of the loop: dispatch on the current character, yielding
the optionally produced token, the updated context, and the new position,
line and column. -/
def parseStep (src : List Char) (position line column : Nat) (context : Context) :
    Except String (Option Token × Context × Nat × Nat × Nat) :=
  match getChar src position with
  | none =>
    -- unreachable: the loop only steps while position < src.length,
    -- where get_char returns a real character
    Except.ok (none, context, position + 1, line, column)
  | some char =>
    if isWhitespaceChar char then
      if isLineBreakChar char then
        Except.ok (none, context, position + 1, line + 1, 0)
      else Except.ok (none, context, position + 1, line, column + 1)
    else if char = '/' then
      match validate_token context char line column with
      | Except.error e => Except.error e
      | Except.ok _ =>
        if (find_prev_char_ignore_whitespace src position).any isIdentChar = true ∨
            find_prev_char_ignore_whitespace src position = some ')' ∨
            find_prev_char_ignore_whitespace src position = some ']' then
          match read_operator src position line column with
          | Except.error e => Except.error e
          | Except.ok (t, p1, c1) => Except.ok (some t, context, p1, line, c1)
        else
          match read_reg_exp src position line column with
          | Except.error e => Except.error e
          | Except.ok (t, p1, c1) => Except.ok (some t, context, p1, line, c1)
    else if isStringBoundaryChar char then
      match validate_token context char line column with
      | Except.error e => Except.error e
      | Except.ok _ =>
        match read_string src position line column with
        | Except.error e => Except.error e
        | Except.ok (t, p1, c1) => Except.ok (some t, context, p1, line, c1)
    else if char = '#' then
      match validate_token context char line column with
      | Except.error e => Except.error e
      | Except.ok _ =>
        match read_private_name src position column with
        | (t, p1, c1) => Except.ok (some t, context, p1, line, c1)
    else if isIdentChar char then
      match read_identifier src context position line column with
      | Except.error e => Except.error e
      | Except.ok (t, context1, p1, c1) => Except.ok (some t, context1, p1, line, c1)
    else
      match validate_token context char line column with
      | Except.error e => Except.error e
      | Except.ok _ =>
        match read_operator src position line column with
        | Except.error e => Except.error e
        | Except.ok (t, p1, c1) => Except.ok (some t, context, p1, line, c1)

/- The scanning loop of `parse`, iterated while `position < src.length`. -/
def parseLoop (src : List Char) (fuel position line column : Nat)
    (tokens : List Token) (context : Context) :
    Except String (List Token × Context) :=
  if position < src.length then
    match fuel with
    | 0 => Except.error "parse loop fuel exhausted"
    | fuel + 1 =>
      match parseStep src position line column context with
      | Except.error e => Except.error e
      | Except.ok (ot, context1, p1, l1, c1) =>
        parseLoop src fuel p1 l1 c1 (tokens ++ ot.toList) context1
  else Except.ok (tokens, context)

/- The token stream and final context produced by `parse` (the source
accumulates `tokens` but returns only the Program; `scan` exposes both). -/
def scan (src : String) : Except String (List Token × Context) :=
  parseLoop src.toList (src.toList.length + 1) 0 1 0 [] Context.new

/- parse, from parser.rs: `Program::new(1, 0)` whose body is the statement
sink the context wrote into. -/
def parse (src : String) : Except String Program :=
  match scan src with
  | Except.error e => Except.error e
  | Except.ok (_, context) =>
    Except.ok { loc := { source := none, start := ⟨1, 0⟩, endPos := ⟨0, 0⟩ }
                body := context.statements }

/- Observables used by the claims about the statement sink. -/

def fdOfName : Token → Option Stmt
  | Token.Name n => some (Stmt.FunctionDeclaration n)
  | _ => none

def isNameToken : Token → Bool
  | Token.Name _ => true
  | _ => false

/-- Recognises the two tokens the operator path can produce at a slash:
division and the compound division assignment. -/
def isDivToken : Token → Bool
  | Token.Arithmetic Arithmetic.Divide => true
  | Token.Assign Assign.Division => true
  | _ => false

instance {ε α : Type} [DecidableEq ε] [DecidableEq α] : DecidableEq (Except ε α) := fun a b =>
  match a, b with
  | Except.error e, Except.error f =>
    if h : e = f then Decidable.isTrue (by rw [h])
    else Decidable.isFalse (fun hh => h (Except.error.inj hh))
  | Except.error _, Except.ok _ => Decidable.isFalse (fun hh => Except.noConfusion hh)
  | Except.ok _, Except.error _ => Decidable.isFalse (fun hh => Except.noConfusion hh)
  | Except.ok x, Except.ok y =>
    if h : x = y then Decidable.isTrue (by rw [h])
    else Decidable.isFalse (fun hh => h (Except.ok.inj hh))

/- Theorems.  Claim-level results are named c1_* through c10_*; the hl_*
lemmas are shared helpers. -/

/-- Claim C3.  The claim states that every valid decimal integer literal,
including the single digit `0`, scans to a numeric token with its
mathematical value.  On the input `0` the scanner instead fails: the
`("0", _)` radix arm consumes the `0` as an octal prefix (second conjunct),
the remaining digit run is empty, and decoding the empty content fails,
which the source unwraps into a panic (first conjunct). -/
theorem c3_zero_literal :
    scan "0" = Except.error "invalid float literal" ∧
    numberSystemOf "0".toList 0 = (NumberSystem.Octal, 1) := by
  constructor <;> rfl

/-- Claim C4.  Scanning `123n` does produce a big-integer token with value
123 whose raw text includes the suffix, but the cursor is never advanced
past the `n` (the source slices `position + 1` into the raw text without
updating `position`), so the scan emits an additional `Name "n"` token --
and, through it, a stray FunctionDeclaration placeholder -- contradicting
the claim that no separate token follows the suffix. -/
theorem c4_bigint_suffix :
    scan "123n" = Except.ok
      ([Token.Bigint "123n" NumberSystem.Decimal 123, Token.Name "n"],
       { is_function_identifier := false
         is_directive := false
         is_pattern := false
         statements := [Stmt.FunctionDeclaration "n"]
         expressions := none }) := by
  rfl

/-- Claim C5.  `1_000` does not scan to a numeric token of value 1000: the
digit-and-separator loop accepts it, but the decoded content is passed to
the float parser with the underscore still in it, which fails and is
unwrapped into a panic.  `_1` raises no error at all: it begins with an
identifier-class character that is not a digit, so it lexes as a Name
token.  Only the `1__0` half of the claim matches the code: two
consecutive separators are a fatal error. -/
theorem c5_digit_separator :
    scan "1_000" = Except.error "invalid float literal" ∧
    scan "_1" = Except.ok ([Token.Name "_1"],
      { is_function_identifier := false
        is_directive := false
        is_pattern := false
        statements := [Stmt.FunctionDeclaration "_1"]
        expressions := none }) ∧
    scan "1__0" = Except.error "Only one underscore is allowed as numeric separator" := by
  refine ⟨?_, ?_, ?_⟩ <;> rfl

/-- Claim C6.  The string token emitted for `"a\"b"` carries the raw text
with both quotes, but its content is the raw text with only the opening
quote removed (`utf8_slice::slice(raw, 1, len raw)`): the closing quote is
retained, so the content is `a\"b"` rather than the claimed `a\"b`. -/
theorem c6_string_payload :
    scan "\"a\\\"b\"" = Except.ok
      ([Token.String "\"a\\\"b\"" "a\\\"b\""], Context.new) := by
  rfl

/-- Claim C8.  For `/ab/` (no modifier) the emitted regex token's content
is `ab/`: the content slice ends at the cursor, which sits one past the
closing delimiter, so the closing `/` is kept.  With a modifier the slice
ends at `position - 2` and the delimiters and modifier are stripped as the
claim states (second conjunct, for `/ab/g`). -/
theorem c8_regexp_payload :
    scan "/ab/" = Except.ok ([Token.RegExp "/ab/" "ab/" none], Context.new) ∧
    scan "/ab/g" = Except.ok
      ([Token.RegExp "/ab/g" "ab" (some RegExpModifier.G)], Context.new) := by
  constructor <;> rfl

/-- Claim C7 counterexample.  The claim says a backslash also suppresses
line-break termination, so that in `"a\<LF>b"` the escaped line break is
consumed as content and the string closes at the final quote.  In the code
the line-break test sits outside the escape disjunct: scanning this input
stops at the line break with the escape flag set and fails. -/
theorem c7_counterexample :
    scan "\"a\\\nb\"" =
      Except.error "Unexpected character \x27\\n\x27 at line:1, column:2." := by
  rfl

/-- Claim C7, amended.  String scanning consumes until an unescaped
matching quote or a line break, where a line break terminates even when
the escape flag is set; a backslash suppresses quote termination for
exactly the next codepoint (escaped quotes are consumed as content);
and reaching a line break or end of input before the matching quote is a
fatal error whose message reports the offending character (line breaks
shown escaped, end of input as empty) together with the 1-based line and
the 0-based column reached.  Conjuncts: (1) with the escape flag set, any
in-range non-line-break codepoint -- the quote included -- is consumed and
the flag is cleared; (2) a line break stops the loop whatever the flag;
(3) an unescaped quote stops the loop; (4) an ordinary codepoint is
consumed, setting the flag exactly when it is a backslash; (5) end of
input stops the loop; (6) if read_string fails, the loop stopped on a
non-quote and the message reports that character at the reached column;
(7) if read_string succeeds, the loop stopped on the matching quote and
the raw text spans opening through closing quote; (8) and (9) concrete
runs: an escaped quote is consumed as content, and an unterminated string
fails at end of input. -/
theorem c7_string_termination :
    (∀ (src : List Char) (b : Char) (fuel p c : Nat) (ch : Char),
        p < src.length → getChar src p = some ch → isLineBreakChar ch = false →
        scanEscaped src (some b) (fuel + 1) p c true =
          scanEscaped src (some b) fuel (p + 1) (c + 1) false) ∧
    (∀ (src : List Char) (bd : Option Char) (fuel p c : Nat) (esc : Bool) (ch : Char),
        getChar src p = some ch → isLineBreakChar ch = true →
        scanEscaped src bd (fuel + 1) p c esc = (p, c)) ∧
    (∀ (src : List Char) (b : Char) (fuel p c : Nat),
        getChar src p = some b →
        scanEscaped src (some b) (fuel + 1) p c false = (p, c)) ∧
    (∀ (src : List Char) (b : Char) (fuel p c : Nat) (ch : Char),
        p < src.length → getChar src p = some ch → ch ≠ b → isLineBreakChar ch = false →
        scanEscaped src (some b) (fuel + 1) p c false =
          scanEscaped src (some b) fuel (p + 1) (c + 1) (decide (ch = '\\'))) ∧
    (∀ (src : List Char) (bd : Option Char) (fuel p c : Nat) (esc : Bool),
        src.length ≤ p → scanEscaped src bd (fuel + 1) p c esc = (p, c)) ∧
    (∀ (src : List Char) (pos l c : Nat) (e : String),
        read_string src pos l c = Except.error e →
        ∃ p1 c1,
          scanEscaped src (getChar src pos) (src.length + 1) (pos + 1) c false = (p1, c1) ∧
          getChar src p1 ≠ getChar src pos ∧
          e = unexpectedCharPeriodMsg (displayStrChar (getChar src p1)) l c1) ∧
    (∀ (src : List Char) (pos l c : Nat) (t : Token) (p2 c2 : Nat),
        read_string src pos l c = Except.ok (t, p2, c2) →
        ∃ p1,
          scanEscaped src (getChar src pos) (src.length + 1) (pos + 1) c false = (p1, c2) ∧
          getChar src p1 = getChar src pos ∧ p2 = p1 + 1 ∧
          t = Token.String (String.mk (ReadonlyString.slice src pos (p1 + 1)))
                (String.mk ((ReadonlyString.slice src pos (p1 + 1)).drop 1))) ∧
    scan "\x27a\\\x27b\x27" =
      Except.ok ([Token.String "\x27a\\\x27b\x27" "a\\\x27b\x27"], Context.new) ∧
    scan "\x27ab" = Except.error "Unexpected character \x27\x27 at line:1, column:2." := by
  refine ⟨?_, ?_, ?_, ?_, ?_, ?_, ?_, ?_, ?_⟩
  · intro src b fuel p c ch h1 h2 h3
    simp [scanEscaped, h1, h2, h3]
  · intro src bd fuel p c esc ch h1 h2
    simp [scanEscaped, h1, h2]
  · intro src b fuel p c h1
    simp [scanEscaped, h1]
  · intro src b fuel p c ch h1 h2 h3 h4
    simp [scanEscaped, h1, h2, h3, h4]
  · intro src bd fuel p c esc h1
    have h2 : ¬ p < src.length := by omega
    simp [scanEscaped, h2]
  · intro src pos l c e h
    simp only [read_string] at h
    rcases hsc : scanEscaped src (getChar src pos) (src.length + 1) (pos + 1) c false
      with ⟨p1, c1⟩
    rw [hsc] at h
    by_cases hb : getChar src p1 = getChar src pos
    · rw [if_neg (by simp [hb])] at h
      exact absurd h (by simp)
    · rw [if_pos hb] at h
      exact ⟨p1, c1, rfl, hb, (Except.error.inj h).symm⟩
  · intro src pos l c t p2 c2 h
    simp only [read_string] at h
    rcases hsc : scanEscaped src (getChar src pos) (src.length + 1) (pos + 1) c false
      with ⟨p1, c1⟩
    rw [hsc] at h
    by_cases hb : getChar src p1 = getChar src pos
    · rw [if_neg (by simp [hb])] at h
      simp only [Except.ok.injEq, Prod.mk.injEq] at h
      obtain ⟨ht, hp, hc⟩ := h
      exact ⟨p1, congrArg (Prod.mk p1) hc, hb, hp.symm, ht.symm⟩
    · rw [if_pos hb] at h
      exact absurd h (by simp)
  · rfl
  · rfl

/-- Claim C7 witness: conjunct (2) of `c7_string_termination` applied to
the concrete buffer `a<LF>b`, position 1 (the line break), with the escape
flag set. -/
theorem c7_witness :
    scanEscaped "a\nb".toList (some '"') (4 + 1) 1 0 true = (1, 0) :=
  c7_string_termination.2.1 "a\nb".toList (some '"') 4 1 0 true '\n' rfl rfl

/-- Claim C9 counterexample.  The claim says a literal whose first two
codepoints are not `0b`, `0x`, or `0` + digit -- for instance a `0`
followed by a non-digit -- is tagged decimal.  The radix match in
read_numberic (parser.rs lines 141 to 155) has the catch-all arm
`("0", _)`: on the input `0z` it tags the literal octal and consumes the
`0` as a one-codepoint prefix, after which the empty digit run fails to
decode, so no decimal-tagged token exists. -/
theorem c9_counterexample :
    numberSystemOf "0z".toList 0 = (NumberSystem.Octal, 1) ∧
    scan "0z" = Except.error "invalid float literal" := by
  constructor <;> rfl

/-- Claim C9, amended.  The radix of a numeric literal is determined by its
prefix as follows: `0b` is tagged binary and `0x` hex (two codepoints of
prefix consumed); `0` followed by anything else -- any other codepoint or
end of input -- is tagged octal (one codepoint consumed); a literal not
starting with `0` is tagged decimal (nothing consumed).  The radix so
determined is the tag recorded on whatever token read_numberic emits,
independently of the decoded value (conjunct 5); in particular `0b101`
is tagged binary even though its run is decoded as decimal 101
(conjuncts 6 to 8). -/
theorem c9_radix_tagging :
    (∀ (src : List Char) (start : Nat),
        getChar src start = some '0' → getChar src (start + 1) = some 'b' →
        numberSystemOf src start = (NumberSystem.Binary, start + 2)) ∧
    (∀ (src : List Char) (start : Nat),
        getChar src start = some '0' → getChar src (start + 1) = some 'x' →
        numberSystemOf src start = (NumberSystem.Hex, start + 2)) ∧
    (∀ (src : List Char) (start : Nat),
        getChar src start = some '0' →
        getChar src (start + 1) ≠ some 'b' → getChar src (start + 1) ≠ some 'x' →
        numberSystemOf src start = (NumberSystem.Octal, start + 1)) ∧
    (∀ (src : List Char) (start : Nat),
        getChar src start ≠ some '0' →
        numberSystemOf src start = (NumberSystem.Decimal, start)) ∧
    (∀ (src : List Char) (pos line col : Nat) (t : Token) (p1 c1 : Nat),
        read_numberic src pos line col = Except.ok (t, p1, c1) →
        (∃ raw v, t = Token.Number raw (numberSystemOf src pos).1 v) ∨
        (∃ raw v, t = Token.Bigint raw (numberSystemOf src pos).1 v)) ∧
    scan "0b101" = Except.ok ([Token.Number "0b101" NumberSystem.Binary 101], Context.new) ∧
    scan "0x12" = Except.ok ([Token.Number "0x12" NumberSystem.Hex 12], Context.new) ∧
    scan "07" = Except.ok ([Token.Number "07" NumberSystem.Octal 7], Context.new) := by
  refine ⟨?_, ?_, ?_, ?_, ?_, ?_, ?_, ?_⟩
  · intro src start h0 hb
    simp only [numberSystemOf]
    split <;> simp_all
  · intro src start h0 hx
    simp only [numberSystemOf]
    split <;> simp_all
  · intro src start h0 hb hx
    simp only [numberSystemOf]
    split <;> simp_all
  · intro src start h0
    simp only [numberSystemOf]
    split <;> simp_all
  · intro src pos line col t p1 c1 h
    simp only [read_numberic] at h
    rcases hns : numberSystemOf src pos with ⟨system, p0⟩
    rw [hns] at h
    split at h
    · exact absurd h (by simp)
    · split at h
      · exact absurd h (by simp)
      · split at h
        · split at h
          · exact Or.inr ⟨_, _, (congrArg Prod.fst (Except.ok.inj h)).symm⟩
          · exact absurd h (by simp)
        · split at h
          · exact Or.inl ⟨_, _, (congrArg Prod.fst (Except.ok.inj h)).symm⟩
          · exact absurd h (by simp)
  · rfl
  · rfl
  · rfl

/-- Claim C9 witness: the binary conjunct of `c9_radix_tagging` applied to
the concrete literal `0b1`. -/
theorem c9_witness : numberSystemOf "0b1".toList 0 = (NumberSystem.Binary, 2) :=
  c9_radix_tagging.1 "0b1".toList 0 rfl rfl

/- Shared helper lemmas. -/

/-- Backward whitespace scan characterised declaratively: starting at index
i (in range), it returns the last non-whitespace character among the first
i + 1 characters. -/
theorem hl_findPrevAux (src : List Char) :
    ∀ i, i < src.length →
      findPrevAux src i = ((src.take (i + 1)).filter (fun c => !isWhitespaceChar c)).getLast? := by
  intro i
  induction i with
  | zero =>
    intro hi
    have h0 : getChar src 0 = some src[0] := by
      simp [getChar, List.getElem?_eq_getElem hi]
    have ht : src.take 1 = [src[0]] := by
      rw [List.take_succ]
      simp [List.getElem?_eq_getElem hi]
    by_cases hw : isWhitespaceChar src[0]
    · simp [findPrevAux, h0, hw, ht]
    · simp [findPrevAux, h0, hw, ht]
  | succ j ih =>
    intro hi
    have hj : j < src.length := by omega
    have hc : getChar src (j + 1) = some src[j + 1] := by
      simp [getChar, List.getElem?_eq_getElem hi]
    have ht : src.take (j + 2) = src.take (j + 1) ++ [src[j + 1]] := by
      rw [List.take_succ]
      simp [List.getElem?_eq_getElem hi]
    by_cases hw : isWhitespaceChar src[j + 1]
    · rw [show findPrevAux src (j + 1) = findPrevAux src j by simp [findPrevAux, hc, hw],
        ih hj, ht, List.filter_append]
      simp [hw]
    · rw [show findPrevAux src (j + 1) = getChar src (j + 1) by simp [findPrevAux, hc, hw],
        ht, List.filter_append, hc]
      simp [hw]

/-- Head of a nonempty slice taken at the cursor. -/
theorem hl_slice_head (src : List Char) (p k : Nat) (hk : 0 < k) :
    (ReadonlyString.slice src p (p + k)).head? = getChar src p := by
  unfold ReadonlyString.slice getChar
  rw [List.head?_drop, List.getElem?_take]
  simp [Nat.lt_add_of_pos_right hk]

/-- Every operator-table entry whose key starts with a slash is division or
division-assignment. -/
theorem hl_opTable_slash :
    ∀ e ∈ operatorTable, e.1.head? = some '/' → isDivToken e.2 = true := by
  decide

/-- Unfolding of the isDivToken recogniser. -/
theorem hl_isDivToken_spec (t : Token) (h : isDivToken t = true) :
    t = Token.Arithmetic Arithmetic.Divide ∨ t = Token.Assign Assign.Division := by
  cases t
  case Arithmetic a => cases a <;> simp_all [isDivToken]
  case Assign a => cases a <;> simp_all [isDivToken]
  all_goals simp_all [isDivToken]

/-- Any table lookup of a string starting with a slash yields division or
division-assignment. -/
theorem hl_getop_slash (cs : List Char) (t : Token) (hh : cs.head? = some '/')
    (h : get_operator_by_chars cs = some t) :
    t = Token.Arithmetic Arithmetic.Divide ∨ t = Token.Assign Assign.Division := by
  unfold get_operator_by_chars at h
  rcases Option.map_eq_some'.mp h with ⟨e, hfind, het⟩
  have hmem := List.mem_of_find?_eq_some hfind
  have hpred := List.find?_some hfind
  simp only [decide_eq_true_eq] at hpred
  have he : e.1 = cs := hpred
  have hdiv := hl_opTable_slash e hmem (by rw [he]; exact hh)
  rw [het] at hdiv
  exact hl_isDivToken_spec t hdiv

/-- Claim C1 counterexample.  The claim says that on every input, a `/`
whose nearest preceding non-whitespace character is identifier-class
starts an operator token.  In `function/a` the `/` is preceded by the
identifier-class `n`, yet the scan aborts with a grammar-state error
before the lookback is even consulted, because validate_token runs first
and the function-identifier flag is still set. -/
theorem c1_counterexample :
    scan "function/a" =
      Except.error "Unexpected character \x27/\x27 at line:1, column:8" := by
  rfl

/-- Claim C1, amended: outside the function-identifier grammar state, the
regex/divide disambiguation is exactly as claimed.  Conjuncts: (1) the
lookback helper returns the last non-whitespace character of the text
before the cursor (none at start of input or when only whitespace
precedes); (2) whenever the operator path succeeds at a `/`, the token is
the division operator or the `/=` compound assignment; (3) at a `/` with
the grammar-state flag clear, if the lookback yields an identifier-class
character, `)` or `]`, the scanner takes the operator path, and (4)
otherwise it opens a regular-expression literal; (5) `a / b` scans as
name, divide, name, and (6) `/ab/i` at start of input scans as a single
regex token with modifier i. -/
theorem c1_regex_divide :
    (∀ (src : List Char) (start : Nat), start ≤ src.length →
        find_prev_char_ignore_whitespace src start =
          ((src.take start).filter (fun c => !isWhitespaceChar c)).getLast?) ∧
    (∀ (src : List Char) (pos l c : Nat) (t : Token) (p1 c1 : Nat),
        getChar src pos = some '/' →
        read_operator src pos l c = Except.ok (t, p1, c1) →
        t = Token.Arithmetic Arithmetic.Divide ∨ t = Token.Assign Assign.Division) ∧
    (∀ (src : List Char) (pos l c : Nat) (ctx : Context),
        ctx.is_function_identifier = false → getChar src pos = some '/' →
        ((find_prev_char_ignore_whitespace src pos).any isIdentChar = true ∨
          find_prev_char_ignore_whitespace src pos = some ')' ∨
          find_prev_char_ignore_whitespace src pos = some ']') →
        parseStep src pos l c ctx =
          (read_operator src pos l c).map (fun r => (some r.1, ctx, r.2.1, l, r.2.2))) ∧
    (∀ (src : List Char) (pos l c : Nat) (ctx : Context),
        ctx.is_function_identifier = false → getChar src pos = some '/' →
        ¬ ((find_prev_char_ignore_whitespace src pos).any isIdentChar = true ∨
          find_prev_char_ignore_whitespace src pos = some ')' ∨
          find_prev_char_ignore_whitespace src pos = some ']') →
        parseStep src pos l c ctx =
          (read_reg_exp src pos l c).map (fun r => (some r.1, ctx, r.2.1, l, r.2.2))) ∧
    scan "a / b" = Except.ok
      ([Token.Name "a", Token.Arithmetic Arithmetic.Divide, Token.Name "b"],
       { is_function_identifier := false
         is_directive := false
         is_pattern := false
         statements := [Stmt.FunctionDeclaration "a", Stmt.FunctionDeclaration "b"]
         expressions := none }) ∧
    scan "/ab/i" = Except.ok
      ([Token.RegExp "/ab/i" "ab" (some RegExpModifier.I)], Context.new) := by
  refine ⟨?_, ?_, ?_, ?_, ?_, ?_⟩
  · intro src start hs
    rcases start with - | j
    · simp [find_prev_char_ignore_whitespace]
    · have hj : j < src.length := by omega
      simp only [find_prev_char_ignore_whitespace]
      rw [if_neg (by omega)]
      exact hl_findPrevAux src j hj
  · intro src pos l c t p1 c1 hc h
    unfold read_operator at h
    split at h
    case _ t3 heq =>
      have hh : (ReadonlyString.slice src pos (pos + 3)).head? = some '/' := by
        rw [hl_slice_head src pos 3 (by omega), hc]
      have := hl_getop_slash _ _ hh heq
      have ht := congrArg (fun x => x.1) (Except.ok.inj h)
      simp only at ht
      rw [← ht]
      exact this
    case _ hn3 =>
      split at h
      case _ t2 heq =>
        have hh : (ReadonlyString.slice src pos (pos + 2)).head? = some '/' := by
          rw [hl_slice_head src pos 2 (by omega), hc]
        have := hl_getop_slash _ _ hh heq
        have ht := congrArg (fun x => x.1) (Except.ok.inj h)
        simp only at ht
        rw [← ht]
        exact this
      case _ hn2 =>
        split at h
        case _ t1 heq =>
          have hh : (ReadonlyString.slice src pos (pos + 1)).head? = some '/' := by
            rw [hl_slice_head src pos 1 (by omega), hc]
          have := hl_getop_slash _ _ hh heq
          have ht := congrArg (fun x => x.1) (Except.ok.inj h)
          simp only at ht
          rw [← ht]
          exact this
        case _ hn1 =>
          exact absurd h (by simp)
  · intro src pos l c ctx hflag hc hdiv
    have hws : isWhitespaceChar '/' = false := rfl
    simp only [parseStep, hc, hws, Bool.false_eq_true, if_false, if_pos rfl,
      validate_token, hflag]
    rw [if_pos hdiv]
    rcases hro : read_operator src pos l c with e | r
    · simp [Except.map]
    · rcases r with ⟨t, p1, c1⟩
      simp [Except.map]
  · intro src pos l c ctx hflag hc hdiv
    have hws : isWhitespaceChar '/' = false := rfl
    simp only [parseStep, hc, hws, Bool.false_eq_true, if_false, if_pos rfl,
      validate_token, hflag]
    rw [if_neg hdiv]
    rcases hro : read_reg_exp src pos l c with e | r
    · simp [Except.map]
    · rcases r with ⟨t, p1, c1⟩
      simp [Except.map]
  · rfl
  · rfl

/-- Claim C1 witness: the lookback conjunct of `c1_regex_divide` applied to
the buffer `a /` at the position of the slash (the lookback skips the
space and finds `a`), together with the concrete evaluation of both
sides. -/
theorem c1_witness :
    find_prev_char_ignore_whitespace "a /".toList 2 =
      (("a /".toList.take 2).filter (fun c => !isWhitespaceChar c)).getLast? :=
  c1_regex_divide.1 "a /".toList 2 (by decide)

/-- Claim C2 counterexample.  The claim says every non-Name token scanned
while is_function_identifier is set -- numeric tokens included -- raises a
fatal error.  Scanning `function 1` succeeds: the digit dispatches through
read_identifier into read_numberic, which never consults the flag, so a
numeric token is emitted and the flag is still set afterwards. -/
theorem c2_counterexample :
    scan "function 1" = Except.ok
      ([Token.Function, Token.Number "1" NumberSystem.Decimal 1],
       { is_function_identifier := true
         is_directive := false
         is_pattern := false
         statements := []
         expressions := none }) := by
  rfl

/-- Claim C2, amended.  is_function_identifier is set when a `function`
keyword token is consumed and cleared exactly when a Name token is
consumed; while it is set, scanning a string, regex, private-name or
operator token is a fatal unexpected-character error naming the offending
character and position (conjunct 1), and any keyword other than a further
`function` is a fatal unexpected-token error naming the lexeme (conjunct
3: a successful read_keyword_or_name under the flag yields a Name or
`function` only; the other parts of conjunct 3 record how each token kind
moves the flag).  However, numeric and big-integer tokens are scanned with
no validation at all and leave the flag set (conjunct 2 and the concrete
`function 1` run in the counterexample); a further `function` keyword is
likewise accepted (conjunct 4).  Conjuncts 5 and 6 show the fatal cases
concretely. -/
theorem c2_function_identifier :
    (∀ (src : List Char) (pos l c : Nat) (ctx : Context) (ch : Char),
        ctx.is_function_identifier = true → getChar src pos = some ch →
        isWhitespaceChar ch = false → isIdentChar ch = false →
        parseStep src pos l c ctx = Except.error (unexpectedCharMsg ch l c)) ∧
    (∀ (src : List Char) (pos l c : Nat) (ctx : Context) (ch : Char),
        getChar src pos = some ch → isNumericChar ch = true →
        parseStep src pos l c ctx =
          (read_numberic src pos l c).map (fun r => (some r.1, ctx, r.2.1, l, r.2.2))) ∧
    (∀ (src : List Char) (ctx : Context) (pos l c : Nat) (t : Token)
        (ctx1 : Context) (p1 c1 : Nat),
        read_keyword_or_name src ctx pos l c = Except.ok (t, ctx1, p1, c1) →
        ((∃ n, t = Token.Name n) → ctx1.is_function_identifier = false) ∧
        (t = Token.Function → ctx1.is_function_identifier = true) ∧
        ((∀ n, t ≠ Token.Name n) → t ≠ Token.Function → ctx1 = ctx) ∧
        (ctx.is_function_identifier = true → (∃ n, t = Token.Name n) ∨ t = Token.Function)) ∧
    scan "function function" = Except.ok
      ([Token.Function, Token.Function],
       { is_function_identifier := true
         is_directive := false
         is_pattern := false
         statements := []
         expressions := none }) ∧
    scan "function (" = Except.error "Unexpected character \x27(\x27 at line:1, column:9" ∧
    scan "function do" = Except.error "Unexpected token \x27do\x27 at line:1, column:11" := by
  refine ⟨?_, ?_, ?_, ?_, ?_, ?_⟩
  · intro src pos l c ctx ch hflag hc hw hid
    by_cases h1 : ch = '/'
    · subst h1
      simp [parseStep, hc, hw, validate_token, hflag]
    · by_cases h2 : isStringBoundaryChar ch = true
      · simp [parseStep, hc, hw, h1, h2, validate_token, hflag]
      · by_cases h3 : ch = '#'
        · subst h3
          simp [parseStep, hc, hw, h1, validate_token, hflag]
        · simp [parseStep, hc, hw, h1, h2, h3, hid, validate_token, hflag]
  · intro src pos l c ctx ch hc h2
    have hn : 48 ≤ ch.toNat ∧ ch.toNat ≤ 57 := by simpa [isNumericChar] using h2
    have hw3 : isWhitespaceChar ch = false := by
      simp only [isWhitespaceChar, decide_eq_false_iff_not]
      omega
    have hb3 : isStringBoundaryChar ch = false := by
      simp only [isStringBoundaryChar, decide_eq_false_iff_not]
      omega
    have hi3 : isIdentChar ch = true := by
      simp only [isIdentChar, decide_eq_true_eq]
      omega
    have hs3 : ch ≠ '/' := by
      intro hx
      rw [hx] at h2
      exact absurd h2 (by decide)
    have hh3 : ch ≠ '#' := by
      intro hx
      rw [hx] at h2
      exact absurd h2 (by decide)
    rcases hro : read_numberic src pos l c with e | r
    · simp [parseStep, hc, hw3, hb3, hi3, hs3, hh3, read_identifier, h2, hro, Except.map]
    · rcases r with ⟨t, p1, c1⟩
      simp [parseStep, hc, hw3, hb3, hi3, hs3, hh3, read_identifier, h2, hro, Except.map]
  · intro src ctx pos l c t ctx1 p1 c1 h
    simp only [read_keyword_or_name] at h
    rcases hir : readIdentRun src (src.length + 1) pos c with ⟨p2, c2⟩
    rw [hir] at h
    split at h
    · rename_i n heq
      have h2 := Except.ok.inj h
      have ht := congrArg Prod.fst h2
      have hctx := congrArg (fun x => x.2.1) h2
      simp only at ht hctx
      refine ⟨fun _ => ?_, fun hf => ?_, fun hnn _ => ?_, fun _ => Or.inl ⟨n, ht.symm⟩⟩
      · rw [← hctx]
      · rw [← ht] at hf
        exact absurd hf (by simp)
      · exact absurd ht.symm (hnn n)
    · split at h
      · rename_i heq es hes
        have h2 := Except.ok.inj h
        have ht := congrArg Prod.fst h2
        have hctx := congrArg (fun x => x.2.1) h2
        simp only at ht hctx
        refine ⟨fun hn => ?_, fun _ => ?_, fun _ hnf => ?_, fun _ => Or.inr ht.symm⟩
        · rcases hn with ⟨n, hn⟩
          rw [← ht] at hn
          exact absurd hn (by simp)
        · rw [← hctx]
        · exact absurd ht.symm hnf
      · rename_i heq hes
        have h2 := Except.ok.inj h
        have ht := congrArg Prod.fst h2
        have hctx := congrArg (fun x => x.2.1) h2
        simp only at ht hctx
        refine ⟨fun hn => ?_, fun _ => ?_, fun _ hnf => ?_, fun _ => Or.inr ht.symm⟩
        · rcases hn with ⟨n, hn⟩
          rw [← ht] at hn
          exact absurd hn (by simp)
        · rw [← hctx]
        · exact absurd ht.symm hnf
    · split at h
      · exact absurd h (by simp)
      · rename_i t0 hnName hnFun hfl
        have h2 := Except.ok.inj h
        have ht := congrArg Prod.fst h2
        have hctx := congrArg (fun x => x.2.1) h2
        simp only at ht hctx
        refine ⟨fun _ => ?_, fun hf => ?_, fun _ _ => hctx.symm, fun hfl2 => ?_⟩
        · rw [← hctx]
          simpa using hfl
        · exact absurd (ht.trans hf) hnFun
        · exact absurd hfl2 (by simpa using hfl)
  · rfl
  · rfl
  · rfl

/-- Claim C2 witness: conjunct 2 of `c2_function_identifier` applied to
the buffer `1` at position 0 with the function-identifier flag set: the
numeric path is taken with no grammar-state validation. -/
theorem c2_witness :
    parseStep "1".toList 0 1 0
      { is_function_identifier := true
        is_directive := false
        is_pattern := false
        statements := []
        expressions := none } =
    (read_numberic "1".toList 0 1 0).map
      (fun r =>
        (some r.1,
         ({ is_function_identifier := true
            is_directive := false
            is_pattern := false
            statements := []
            expressions := none } : Context), r.2.1, 1, r.2.2)) :=
  c2_function_identifier.2.1 "1".toList 0 1 0 _ '1' rfl rfl

/-- Tokens other than Name produce no statement. -/
theorem hl_fdOfName_none (t : Token) (h : ∀ n, t ≠ Token.Name n) : fdOfName t = none := by
  cases t <;> first | rfl | exact absurd rfl (h _)

/-- A produced statement is a FunctionDeclaration, from a Name token. -/
theorem hl_fdOfName_some (a : Token) (s : Stmt) (h : fdOfName a = some s) :
    ∃ n, s = Stmt.FunctionDeclaration n := by
  cases a <;> simp [fdOfName] at h
  exact ⟨_, h.symm⟩

/-- No operator-table token is a Name. -/
theorem hl_opTable_no_name : ∀ e ∈ operatorTable, fdOfName e.2 = none := by
  decide

/-- Tokens from read_operator produce no statement. -/
theorem hl_read_operator_fd (src : List Char) (pos l c : Nat) (t : Token) (p1 c1 : Nat)
    (h : read_operator src pos l c = Except.ok (t, p1, c1)) : fdOfName t = none := by
  have hget : ∀ cs t0, get_operator_by_chars cs = some t0 → fdOfName t0 = none := by
    intro cs t0 hg
    unfold get_operator_by_chars at hg
    rcases Option.map_eq_some'.mp hg with ⟨e, hfind, het⟩
    rw [← het]
    exact hl_opTable_no_name e (List.mem_of_find?_eq_some hfind)
  unfold read_operator at h
  split at h
  case _ t3 heq =>
    have ht := congrArg Prod.fst (Except.ok.inj h)
    simp only at ht
    rw [← ht]
    exact hget _ _ heq
  case _ =>
    split at h
    case _ t2 heq =>
      have ht := congrArg Prod.fst (Except.ok.inj h)
      simp only at ht
      rw [← ht]
      exact hget _ _ heq
    case _ =>
      split at h
      case _ t1 heq =>
        have ht := congrArg Prod.fst (Except.ok.inj h)
        simp only at ht
        rw [← ht]
        exact hget _ _ heq
      case _ =>
        exact absurd h (by simp)

/-- Tokens from read_string produce no statement. -/
theorem hl_read_string_fd (src : List Char) (pos l c : Nat) (t : Token) (p1 c1 : Nat)
    (h : read_string src pos l c = Except.ok (t, p1, c1)) : fdOfName t = none := by
  simp only [read_string] at h
  rcases hsc : scanEscaped src (getChar src pos) (src.length + 1) (pos + 1) c false
    with ⟨p2, c2⟩
  rw [hsc] at h
  split at h
  · exact absurd h (by simp)
  · have ht := congrArg Prod.fst (Except.ok.inj h)
    simp only at ht
    rw [← ht]
    rfl

/-- Tokens from read_reg_exp produce no statement. -/
theorem hl_read_reg_exp_fd (src : List Char) (pos l c : Nat) (t : Token) (p1 c1 : Nat)
    (h : read_reg_exp src pos l c = Except.ok (t, p1, c1)) : fdOfName t = none := by
  simp only [read_reg_exp] at h
  rcases hsc : scanEscaped src (some '/') (src.length + 1) (pos + 1) c false
    with ⟨p2, c2⟩
  rw [hsc] at h
  split at h
  · exact absurd h (by simp)
  · split at h <;>
      (have ht := congrArg Prod.fst (Except.ok.inj h)
       simp only at ht
       rw [← ht]
       rfl)

/-- Tokens from read_numberic produce no statement. -/
theorem hl_read_numberic_fd (src : List Char) (pos l c : Nat) (t : Token) (p1 c1 : Nat)
    (h : read_numberic src pos l c = Except.ok (t, p1, c1)) : fdOfName t = none := by
  simp only [read_numberic] at h
  rcases hns : numberSystemOf src pos with ⟨system, p0⟩
  rw [hns] at h
  split at h
  · exact absurd h (by simp)
  · split at h
    · exact absurd h (by simp)
    · split at h
      · split at h
        · have ht := congrArg Prod.fst (Except.ok.inj h)
          simp only at ht
          rw [← ht]
          rfl
        · exact absurd h (by simp)
      · split at h
        · have ht := congrArg Prod.fst (Except.ok.inj h)
          simp only at ht
          rw [← ht]
          rfl
        · exact absurd h (by simp)

/-- The statement sink after read_keyword_or_name: one FunctionDeclaration
is appended exactly when the emitted token is a Name, keyed by the same
identifier. -/
theorem hl_read_keyword_statements (src : List Char) (ctx : Context)
    (pos l c : Nat) (t : Token) (ctx1 : Context) (p1 c1 : Nat)
    (h : read_keyword_or_name src ctx pos l c = Except.ok (t, ctx1, p1, c1)) :
    ctx1.statements = ctx.statements ++ (fdOfName t).toList := by
  simp only [read_keyword_or_name] at h
  rcases hir : readIdentRun src (src.length + 1) pos c with ⟨p2, c2⟩
  rw [hir] at h
  split at h
  · rename_i n heq
    have h2 := Except.ok.inj h
    have ht := congrArg Prod.fst h2
    have hctx := congrArg (fun x => x.2.1) h2
    simp only at ht hctx
    rw [← hctx, ← ht]
    simp [fdOfName]
  · split at h
    · rename_i heq es hes
      have h2 := Except.ok.inj h
      have ht := congrArg Prod.fst h2
      have hctx := congrArg (fun x => x.2.1) h2
      simp only at ht hctx
      rw [← hctx, ← ht]
      simp [fdOfName]
    · rename_i heq hes
      have h2 := Except.ok.inj h
      have ht := congrArg Prod.fst h2
      have hctx := congrArg (fun x => x.2.1) h2
      simp only at ht hctx
      rw [← hctx, ← ht]
      simp [fdOfName]
  · split at h
    · exact absurd h (by simp)
    · rename_i t0 hnName hnFun hfl
      have h2 := Except.ok.inj h
      have ht := congrArg Prod.fst h2
      have hctx := congrArg (fun x => x.2.1) h2
      simp only at ht hctx
      rw [← hctx, ← ht, hl_fdOfName_none _ (fun n hx => hnName n hx)]
      simp

/-- The statement sink across read_identifier. -/
theorem hl_read_identifier_statements (src : List Char) (ctx : Context)
    (pos l c : Nat) (t : Token) (ctx1 : Context) (p1 c1 : Nat)
    (h : read_identifier src ctx pos l c = Except.ok (t, ctx1, p1, c1)) :
    ctx1.statements = ctx.statements ++ (fdOfName t).toList := by
  unfold read_identifier at h
  split at h
  · rcases hro : read_numberic src pos l c with e | r
    · rw [hro] at h
      exact absurd h (by simp)
    · rcases r with ⟨t2, p2, c2⟩
      rw [hro] at h
      have h2 := Except.ok.inj h
      have ht := congrArg Prod.fst h2
      have hctx := congrArg (fun x => x.2.1) h2
      simp only at ht hctx
      rw [← hctx, ← ht, hl_read_numberic_fd src pos l c t2 p2 c2 hro]
      simp
  · split at h
    · rcases hro : read_reg_exp src pos l c with e | r
      · rw [hro] at h
        exact absurd h (by simp)
      · rcases r with ⟨t2, p2, c2⟩
        rw [hro] at h
        have h2 := Except.ok.inj h
        have ht := congrArg Prod.fst h2
        have hctx := congrArg (fun x => x.2.1) h2
        simp only at ht hctx
        rw [← hctx, ← ht, hl_read_reg_exp_fd src pos l c t2 p2 c2 hro]
        simp
    · split at h
      · rcases hpn : read_private_name src pos c with ⟨t2, p2, c2⟩
        rw [hpn] at h
        have h2 := Except.ok.inj h
        have ht := congrArg Prod.fst h2
        have hctx := congrArg (fun x => x.2.1) h2
        simp only at ht hctx
        have ht2 : fdOfName t2 = none := by
          simp only [read_private_name] at hpn
          rcases hir : readIdentRun src (src.length + 1) (pos + 1) c with ⟨p3, c3⟩
          rw [hir] at hpn
          have htt := congrArg Prod.fst hpn
          simp only at htt
          rw [← htt]
          rfl
        rw [← hctx, ← ht, ht2]
        simp
      · exact hl_read_keyword_statements src ctx pos l c t ctx1 p1 c1 h

/-- The statement sink across one scanning step: it grows by exactly the
FunctionDeclarations of the Name tokens emitted by that step. -/
theorem hl_parseStep_statements (src : List Char) (pos l c : Nat) (ctx : Context)
    (ot : Option Token) (ctx1 : Context) (p1 l1 c1 : Nat)
    (h : parseStep src pos l c ctx = Except.ok (ot, ctx1, p1, l1, c1)) :
    ctx1.statements = ctx.statements ++ ot.toList.filterMap fdOfName := by
  unfold parseStep at h
  split at h
  · have h2 := Except.ok.inj h
    have hot := congrArg Prod.fst h2
    have hctx := congrArg (fun x => x.2.1) h2
    simp only at hot hctx
    rw [← hctx, ← hot]
    simp
  · rename_i char hchar
    split at h
    · split at h <;>
        (have h2 := Except.ok.inj h
         have hot := congrArg Prod.fst h2
         have hctx := congrArg (fun x => x.2.1) h2
         simp only at hot hctx
         rw [← hctx, ← hot]
         simp)
    · split at h
      · split at h
        · exact absurd h (by simp)
        · split at h
          · split at h
            · exact absurd h (by simp)
            · rename_i t2 p2 c2 heq
              have h2 := Except.ok.inj h
              have hot := congrArg Prod.fst h2
              have hctx := congrArg (fun x => x.2.1) h2
              simp only at hot hctx
              rw [← hctx, ← hot]
              simp [hl_read_operator_fd src pos l c t2 p2 c2 heq]
          · split at h
            · exact absurd h (by simp)
            · rename_i t2 p2 c2 heq
              have h2 := Except.ok.inj h
              have hot := congrArg Prod.fst h2
              have hctx := congrArg (fun x => x.2.1) h2
              simp only at hot hctx
              rw [← hctx, ← hot]
              simp [hl_read_reg_exp_fd src pos l c t2 p2 c2 heq]
      · split at h
        · split at h
          · exact absurd h (by simp)
          · split at h
            · exact absurd h (by simp)
            · rename_i t2 p2 c2 heq
              have h2 := Except.ok.inj h
              have hot := congrArg Prod.fst h2
              have hctx := congrArg (fun x => x.2.1) h2
              simp only at hot hctx
              rw [← hctx, ← hot]
              simp [hl_read_string_fd src pos l c t2 p2 c2 heq]
        · split at h
          · rcases hpn : read_private_name src pos c with ⟨t2, p2, c2⟩
            rw [hpn] at h
            split at h
            · exact absurd h (by simp)
            · have h2 := Except.ok.inj h
              have hot := congrArg Prod.fst h2
              have hctx := congrArg (fun x => x.2.1) h2
              simp only at hot hctx
              rw [← hctx, ← hot]
              have hfd : fdOfName t2 = none := by
                simp only [read_private_name] at hpn
                rcases hir : readIdentRun src (src.length + 1) (pos + 1) c with ⟨p3, c3⟩
                rw [hir] at hpn
                have htt := congrArg Prod.fst hpn
                simp only at htt
                rw [← htt]
                rfl
              simp [hfd]
          · split at h
            · split at h
              · exact absurd h (by simp)
              · rename_i t2 ctx2 p2 c2 heq
                have h2 := Except.ok.inj h
                have hot := congrArg Prod.fst h2
                have hctx := congrArg (fun x => x.2.1) h2
                simp only at hot hctx
                have hst := hl_read_identifier_statements src ctx pos l c t2 ctx2 p2 c2 heq
                rw [← hctx, ← hot, hst]
                rcases hfd : fdOfName t2 with - | s <;> simp [hfd]
            · split at h
              · exact absurd h (by simp)
              · split at h
                · exact absurd h (by simp)
                · rename_i t2 p2 c2 heq
                  have h2 := Except.ok.inj h
                  have hot := congrArg Prod.fst h2
                  have hctx := congrArg (fun x => x.2.1) h2
                  simp only at hot hctx
                  rw [← hctx, ← hot]
                  simp [hl_read_operator_fd src pos l c t2 p2 c2 heq]

/-- The statement sink across the whole scanning loop: on success, the
tokens gained and the statements gained correspond through fdOfName. -/
theorem hl_parseLoop_statements (src : List Char) :
    ∀ (fuel pos l c : Nat) (toks : List Token) (ctx : Context)
      (toks1 : List Token) (ctx1 : Context),
      parseLoop src fuel pos l c toks ctx = Except.ok (toks1, ctx1) →
      ∃ d, toks1 = toks ++ d ∧
        ctx1.statements = ctx.statements ++ d.filterMap fdOfName := by
  intro fuel
  induction fuel with
  | zero =>
    intro pos l c toks ctx toks1 ctx1 h
    simp only [parseLoop] at h
    split at h
    · exact absurd h (by simp)
    · have h2 := Except.ok.inj h
      have ht := congrArg Prod.fst h2
      have hc := congrArg Prod.snd h2
      simp only at ht hc
      exact ⟨[], by simp [← ht], by simp [← hc]⟩
  | succ f ih =>
    intro pos l c toks ctx toks1 ctx1 h
    simp only [parseLoop] at h
    split at h
    · split at h
      · exact absurd h (by simp)
      · rename_i ot ctx2 p2 l2 c2 heq
        obtain ⟨d2, hts, hst⟩ := ih _ _ _ _ _ _ _ h
        have hstep := hl_parseStep_statements src pos l c ctx ot ctx2 p2 l2 c2 heq
        refine ⟨ot.toList ++ d2, ?_, ?_⟩
        · rw [hts, List.append_assoc]
        · rw [hst, hstep, List.filterMap_append, List.append_assoc]
    · have h2 := Except.ok.inj h
      have ht := congrArg Prod.fst h2
      have hc := congrArg Prod.snd h2
      simp only at ht hc
      exact ⟨[], by simp [← ht], by simp [← hc]⟩

/-- Statement count equals Name-token count. -/
theorem hl_filterMap_length (toks : List Token) :
    (toks.filterMap fdOfName).length = (toks.filter isNameToken).length := by
  induction toks with
  | nil => rfl
  | cons t ts ih =>
    cases t <;> simp [List.filterMap_cons, List.filter_cons, fdOfName, isNameToken, ih]

/-- Claim C10.  On every input whose scan succeeds, the statement list the
scanner built -- which `parse` returns as Program.body -- is exactly the
image of the token stream under fdOfName: one FunctionDeclaration
placeholder per Name token (function names and parameter names included),
in order, and nothing else (first conjunct; the second and third parts
give the claimed corollaries: the body length equals the number of Name
tokens, and every node in the body is a FunctionDeclaration).  The second
conjunct transports this to the Program returned by `parse`, and the third
evaluates the claimed example: `function plus(a, b) {...}` leaves exactly
five FunctionDeclarations, for plus, a, b, a, b. -/
theorem c10_body_functiondecls :
    (∀ (src : String) (toks : List Token) (ctx : Context),
        scan src = Except.ok (toks, ctx) →
        ctx.statements = toks.filterMap fdOfName ∧
        ctx.statements.length = (toks.filter isNameToken).length ∧
        ∀ s ∈ ctx.statements, ∃ n, s = Stmt.FunctionDeclaration n) ∧
    (∀ (src : String) (prog : Program),
        parse src = Except.ok prog →
        ∃ toks ctx, scan src = Except.ok (toks, ctx) ∧
          prog.body = toks.filterMap fdOfName) ∧
    parse "function plus(a, b) \x7b\n  return a + b\n\x7d\n" = Except.ok
      { loc := { source := none, start := ⟨1, 0⟩, endPos := ⟨0, 0⟩ }
        body := [Stmt.FunctionDeclaration "plus", Stmt.FunctionDeclaration "a",
                 Stmt.FunctionDeclaration "b", Stmt.FunctionDeclaration "a",
                 Stmt.FunctionDeclaration "b"] } := by
  have hmain : ∀ (src : String) (toks : List Token) (ctx : Context),
      scan src = Except.ok (toks, ctx) → ctx.statements = toks.filterMap fdOfName := by
    intro src toks ctx h
    obtain ⟨d, hts, hst⟩ := hl_parseLoop_statements src.toList
      (src.toList.length + 1) 0 1 0 [] Context.new toks ctx h
    rw [hst, hts]
    simp [Context.new]
  refine ⟨?_, ?_, ?_⟩
  · intro src toks ctx h
    have h1 := hmain src toks ctx h
    refine ⟨h1, ?_, ?_⟩
    · rw [h1]
      exact hl_filterMap_length toks
    · intro s hs
      rw [h1] at hs
      rcases List.mem_filterMap.mp hs with ⟨a, -, ha⟩
      exact hl_fdOfName_some a s ha
  · intro src prog h
    unfold parse at h
    rcases hs : scan src with e | r
    · rw [hs] at h
      exact absurd h (by simp)
    · rcases r with ⟨toks, ctx⟩
      rw [hs] at h
      refine ⟨toks, ctx, rfl, ?_⟩
      have hb := congrArg Program.body (Except.ok.inj h)
      simp only at hb
      rw [← hb]
      exact hmain src toks ctx hs
  · rfl

/-- Claim C10 witness: the scan-level conjunct of `c10_body_functiondecls`
applied to the input `a`, whose single Name token leaves one
FunctionDeclaration in the statement sink. -/
theorem c10_witness :
    ({ is_function_identifier := false
       is_directive := false
       is_pattern := false
       statements := [Stmt.FunctionDeclaration "a"]
       expressions := none } : Context).statements =
      [Token.Name "a"].filterMap fdOfName :=
  (c10_body_functiondecls.1 "a" [Token.Name "a"] _ rfl).1
